import Mathlib

/-!
Shallow embedding of `streaming-kafka/analytics_consumer/main.py`.

Python dictionaries are modelled as association lists, deques as lists
(front of the list = front of the deque), wall-clock timestamps and window
sizes as rationals, and every method that reads `time.time()` takes the
current time `now : ℚ` as an explicit argument.  Methods that mutate
`self` return the updated state (paired with the return value when the
Python method returns one).
-/

set_option autoImplicit false

universe u

/-- Python `d.get(k)` on a dict modelled as an association list: the value of
the first binding of `k`, if any. -/
def dictGet {α : Type u} (d : List (String × α)) (k : String) : Option α :=
  match d with
  | [] => none
  | (k1, v) :: rest => if k1 = k then some v else dictGet rest k

/-- Python `d[k] = v`: replace the first binding of `k`, or append a new
binding at the end (Python dicts keep insertion order). -/
def dictSet {α : Type u} (d : List (String × α)) (k : String) (v : α) :
    List (String × α) :=
  match d with
  | [] => [(k, v)]
  | (k1, v1) :: rest =>
    if k1 = k then (k, v) :: rest else (k1, v1) :: dictSet rest k v

/-- Python `d.pop(k, None)`: drop the first binding of `k`, if any. -/
def dictPop {α : Type u} (d : List (String × α)) (k : String) :
    List (String × α) :=
  match d with
  | [] => []
  | (k1, v1) :: rest => if k1 = k then rest else (k1, v1) :: dictPop rest k

/-- Python `d.get(k, default)`. -/
def dictGetD {α : Type u} (d : List (String × α)) (k : String) (v0 : α) : α :=
  (dictGet d k).getD v0

/-- JSON values as decoded by `json.loads` (numbers restricted to the
integers actually produced by this system). -/
inductive JVal where
  | jnull
  | jbool (b : Bool)
  | jnum (n : Int)
  | jstr (s : String)
deriving DecidableEq, Repr

/-- A decoded message payload: the Python dict returned by `_decode_payload`. -/
abbrev Payload := List (String × JVal)

/-- Python `str(v)` on a decoded JSON value. -/
def pyStr : JVal → String
  | JVal.jnull => "None"
  | JVal.jbool true => "True"
  | JVal.jbool false => "False"
  | JVal.jnum n => toString n
  | JVal.jstr s => s

/-- Python truthiness of a decoded JSON value. -/
def JVal.truthy : JVal → Bool
  | JVal.jnull => false
  | JVal.jbool b => b
  | JVal.jnum n => n != 0
  | JVal.jstr s => s != ""

/-- Python `payload.get(k)` observed at the Python level, where a JSON
`null` stored under `k` and an absent `k` both yield `None`. -/
def pyGetNone (p : Payload) (k : String) : Option JVal :=
  match dictGet p k with
  | some JVal.jnull => none
  | some v => some v
  | none => none

/-- The raw Kafka message value (`msg.value()`), classified by what
`bytes.decode` + `json.loads` would do to it: absent (`None`), bytes that
decode to a payload map, or bytes whose UTF-8/JSON decoding raises. -/
inductive RawValue where
  | absent
  | wellFormed (p : Payload)
  | malformed (err : String)
deriving DecidableEq, Repr

/-- `_decode_payload`: `None` becomes the empty dict, malformed bytes raise
`ValueError` (modelled as `Except.error`). -/
def decodePayload : RawValue → Except String Payload
  | RawValue.absent => Except.ok []
  | RawValue.wellFormed p => Except.ok p
  | RawValue.malformed err => Except.error ("Invalid JSON payload: " ++ err)

/-- Insertion step for sorting payload keys, mirroring `sort_keys=True`. -/
def insertByKey (kv : String × JVal) : List (String × JVal) → List (String × JVal)
  | [] => [kv]
  | kv1 :: rest =>
    if kv.1 ≤ kv1.1 then kv :: kv1 :: rest else kv1 :: insertByKey kv rest

/-- Sort a payload by key, mirroring `json.dumps(..., sort_keys=True)`. -/
def sortByKey : List (String × JVal) → List (String × JVal)
  | [] => []
  | kv :: rest => insertByKey kv (sortByKey rest)

/-- Textual dump of one JSON value inside the canonical serialization. -/
def dumpJVal : JVal → String
  | JVal.jnull => "null"
  | JVal.jbool true => "true"
  | JVal.jbool false => "false"
  | JVal.jnum n => toString n
  | JVal.jstr s => "\"" ++ s ++ "\""

/-- Models `sha1(json.dumps(payload, sort_keys=True).encode()).hexdigest()`:
an arbitrary deterministic function of the canonically ordered payload (the
cryptographic digest itself is abstracted; only its determinism is used). -/
def payloadDigest (p : Payload) : String :=
  String.intercalate "," ((sortByKey p).map (fun kv => kv.1 ++ "=" ++ dumpJVal kv.2))

/-- `_resolve_order_id`: the payload field `order_id` stringified when the
key is present (even when it holds `null`), else the transport key decoded
as text, with an empty decoded key collapsing to `None`.  The transport key
is modelled as its decoded text (`bytes.decode` with `errors="ignore"`
never raises). -/
def resolveOrderId (messageKey : Option String) (p : Payload) : Option String :=
  match dictGet p "order_id" with
  | some v => some (pyStr v)
  | none =>
    match messageKey with
    | some k => if k = "" then none else some k
    | none => none

/-- `_event_id`: `payload.get("order_id")`, falling back to the decoded
transport key when that is `None`; the formatted identity replaces a falsy
identifier by `"na"` and appends the payload digest. -/
def eventId (topic : String) (messageKey : Option String) (p : Payload) : String :=
  let identifier : Option JVal :=
    match pyGetNone p "order_id" with
    | some v => some v
    | none => messageKey.map JVal.jstr
  let idStr : String :=
    match identifier with
    | some v => if v.truthy then pyStr v else "na"
    | none => "na"
  topic ++ ":" ++ idStr ++ ":" ++ payloadDigest p

/-- State of `DuplicateFilter`: `ttl`, the `_seen` dict and the `_order`
deque. -/
structure DuplicateFilter where
  ttl : ℚ
  seen : List (String × ℚ)
  order : List (ℚ × String)
deriving DecidableEq, Repr

/-- `DuplicateFilter.__init__`: `ttl` clamped to a minimum of 1. -/
def DuplicateFilter.init (ttlSeconds : ℚ) : DuplicateFilter :=
  { ttl := max ttlSeconds 1, seen := [], order := [] }

/-- Loop body of `DuplicateFilter._evict`: pop deque entries older than the
cutoff, removing each from `_seen`. -/
def dfEvictLoop (seen : List (String × ℚ)) (order : List (ℚ × String))
    (cutoff : ℚ) : List (String × ℚ) × List (ℚ × String) :=
  match order with
  | [] => (seen, [])
  | (ts, eid) :: rest =>
    if ts < cutoff then dfEvictLoop (dictPop seen eid) rest cutoff
    else (seen, (ts, eid) :: rest)

/-- `DuplicateFilter._evict(now)`. -/
def DuplicateFilter.evict (f : DuplicateFilter) (now : ℚ) : DuplicateFilter :=
  { f with seen := (dfEvictLoop f.seen f.order (now - f.ttl)).1,
           order := (dfEvictLoop f.seen f.order (now - f.ttl)).2 }

/-- `DuplicateFilter.register(event_id)`: evict, then report `True` for a
known identity (leaving it untouched) or record it at `now` and report
`False`. -/
def DuplicateFilter.register (f : DuplicateFilter) (now : ℚ) (eventId : String) :
    Bool × DuplicateFilter :=
  if (dictGet (f.evict now).seen eventId).isSome then
    (true, f.evict now)
  else
    (false, { f.evict now with
        seen := dictSet (f.evict now).seen eventId now,
        order := (f.evict now).order ++ [(now, eventId)] })

/-- State of `UniqueOrderWindow`: clamped window, the `_entries` dict of
last-seen timestamps and the `_order` deque. -/
structure UniqueOrderWindow where
  window : ℚ
  entries : List (String × ℚ)
  order : List (ℚ × String)
deriving DecidableEq, Repr

/-- `UniqueOrderWindow.__init__`: window clamped to a minimum of 1. -/
def UniqueOrderWindow.init (windowSeconds : ℚ) : UniqueOrderWindow :=
  { window := max windowSeconds 1, entries := [], order := [] }

/-- Loop body of `UniqueOrderWindow._evict`: pop expired deque entries,
dropping an `_entries` binding only when it still carries the popped
timestamp (a refreshed key survives). -/
def uowEvictLoop (entries : List (String × ℚ)) (order : List (ℚ × String))
    (cutoff : ℚ) : List (String × ℚ) × List (ℚ × String) :=
  match order with
  | [] => (entries, [])
  | (ts, oid) :: rest =>
    if ts < cutoff then
      uowEvictLoop (if dictGet entries oid = some ts then dictPop entries oid
                    else entries) rest cutoff
    else (entries, (ts, oid) :: rest)

/-- `UniqueOrderWindow._evict(now)`. -/
def UniqueOrderWindow.evict (w : UniqueOrderWindow) (now : ℚ) : UniqueOrderWindow :=
  { w with entries := (uowEvictLoop w.entries w.order (now - w.window)).1,
           order := (uowEvictLoop w.entries w.order (now - w.window)).2 }

/-- `UniqueOrderWindow.track(order_id)`: a falsy id (`None` or the empty
string) returns immediately; otherwise upsert the last-seen timestamp,
append to the deque and evict. -/
def UniqueOrderWindow.track (w : UniqueOrderWindow) (now : ℚ)
    (orderId : Option String) : UniqueOrderWindow :=
  match orderId with
  | none => w
  | some oid =>
    if oid = "" then w
    else
      UniqueOrderWindow.evict
        { w with entries := dictSet w.entries oid now,
                 order := w.order ++ [(now, oid)] } now

/-- `UniqueOrderWindow.active_orders()`: evict, then count live keys. -/
def UniqueOrderWindow.active_orders (w : UniqueOrderWindow) (now : ℚ) :
    Nat × UniqueOrderWindow :=
  ((w.evict now).entries.length, w.evict now)

/-- `UniqueOrderWindow.per_minute()`: evict, then `count * 60.0 / window`. -/
def UniqueOrderWindow.per_minute (w : UniqueOrderWindow) (now : ℚ) :
    ℚ × UniqueOrderWindow :=
  ((((w.evict now).entries.length : ℚ) * 60) / (w.evict now).window, w.evict now)

/-- State of `FailureWindow`: clamped window, the `_events` deque of
`(timestamp, is_failure)` pairs and the incrementally maintained
`_failures` counter. -/
structure FailureWindow where
  window : ℚ
  events : List (ℚ × Bool)
  failures : Nat
deriving DecidableEq, Repr

/-- `FailureWindow.__init__`: window clamped to a minimum of 1. -/
def FailureWindow.init (windowSeconds : ℚ) : FailureWindow :=
  { window := max windowSeconds 1, events := [], failures := 0 }

/-- Loop body of `FailureWindow._evict`: pop expired events, decrementing
`_failures` (clamped at 0, as `max(self._failures - 1, 0)`) for each popped
failure; natural-number subtraction models the clamp exactly. -/
def fwEvictLoop (events : List (ℚ × Bool)) (failures : Nat) (cutoff : ℚ) :
    List (ℚ × Bool) × Nat :=
  match events with
  | [] => ([], failures)
  | (ts, flag) :: rest =>
    if ts < cutoff then
      fwEvictLoop rest (if flag then failures - 1 else failures) cutoff
    else ((ts, flag) :: rest, failures)

/-- `FailureWindow._evict(now)`. -/
def FailureWindow.evict (fw : FailureWindow) (now : ℚ) : FailureWindow :=
  { fw with events := (fwEvictLoop fw.events fw.failures (now - fw.window)).1,
            failures := (fwEvictLoop fw.events fw.failures (now - fw.window)).2 }

/-- `FailureWindow.track(is_failure)`: append, bump `_failures` on a
failure, then evict. -/
def FailureWindow.track (fw : FailureWindow) (now : ℚ) (isFailure : Bool) :
    FailureWindow :=
  FailureWindow.evict
    { fw with events := fw.events ++ [(now, isFailure)],
              failures := if isFailure then fw.failures + 1 else fw.failures } now

/-- `FailureWindow.totals()`: evict, then `(len(self._events), self._failures)`. -/
def FailureWindow.totals (fw : FailureWindow) (now : ℚ) :
    (Nat × Nat) × FailureWindow :=
  (((fw.evict now).events.length, (fw.evict now).failures), fw.evict now)

/-- `FailureWindow.failure_rate_pct()`: `failures / total * 100` when the
total is non-zero, else `0.0`. -/
def FailureWindow.failure_rate_pct (fw : FailureWindow) (now : ℚ) :
    ℚ × FailureWindow :=
  (if (fw.totals now).1.1 = 0 then (0 : ℚ)
   else (((fw.totals now).1.2 : ℚ) / ((fw.totals now).1.1 : ℚ)) * 100,
   (fw.totals now).2)

/-- Python `int(q)`: truncation toward zero. -/
def pyInt (q : ℚ) : Int :=
  if 0 ≤ q then ⌊q⌋ else ⌈q⌉

/-- State of `MetricsAggregator`: both windows, the stored
`int(window_seconds)` and the three lifetime counters of `self.stats`. -/
structure MetricsAggregator where
  orderWindow : UniqueOrderWindow
  failureWindow : FailureWindow
  windowSeconds : Int
  orders : Nat
  inventory : Nat
  duplicates : Nat
deriving DecidableEq, Repr

/-- `MetricsAggregator.__init__`. -/
def MetricsAggregator.init (windowSeconds : ℚ) : MetricsAggregator :=
  { orderWindow := UniqueOrderWindow.init windowSeconds,
    failureWindow := FailureWindow.init windowSeconds,
    windowSeconds := pyInt windowSeconds,
    orders := 0, inventory := 0, duplicates := 0 }

/-- `MetricsAggregator.record_order`. -/
def MetricsAggregator.record_order (m : MetricsAggregator) (now : ℚ)
    (orderId : Option String) : MetricsAggregator :=
  { m with orders := m.orders + 1,
           orderWindow := m.orderWindow.track now orderId }

/-- `MetricsAggregator.record_inventory`. -/
def MetricsAggregator.record_inventory (m : MetricsAggregator) (now : ℚ)
    (isFailure : Bool) : MetricsAggregator :=
  { m with inventory := m.inventory + 1,
           failureWindow := m.failureWindow.track now isFailure }

/-- `MetricsAggregator.record_duplicate`. -/
def MetricsAggregator.record_duplicate (m : MetricsAggregator) :
    MetricsAggregator :=
  { m with duplicates := m.duplicates + 1 }

/-- The dict returned by `MetricsAggregator.snapshot`. -/
structure Snapshot where
  orders_per_min : ℚ
  inventory_events : Nat
  failures : Nat
  failure_rate_pct : ℚ
  window_seconds : Int
  generated_at : ℚ
deriving DecidableEq, Repr

/-- `MetricsAggregator.snapshot()`: `totals()` first, then the dict literal
whose fields call `per_minute()` and `failure_rate_pct()` (the latter on
the already-evicted failure window). -/
def MetricsAggregator.snapshot (m : MetricsAggregator) (now : ℚ) :
    Snapshot × MetricsAggregator :=
  ({ orders_per_min := (m.orderWindow.per_minute now).1,
     inventory_events := (m.failureWindow.totals now).1.1,
     failures := (m.failureWindow.totals now).1.2,
     failure_rate_pct := ((m.failureWindow.totals now).2.failure_rate_pct now).1,
     window_seconds := m.windowSeconds,
     generated_at := now },
   { m with orderWindow := (m.orderWindow.per_minute now).2,
            failureWindow := ((m.failureWindow.totals now).2.failure_rate_pct now).2 })

/-- The topic configuration a `KafkaAnalyticsWorker` reads from its env. -/
structure WorkerEnv where
  orderTopic : String
  inventoryTopic : String
deriving DecidableEq, Repr

/-- The mutable state `_handle_message` touches: the dedup filter and the
shared aggregator. -/
structure WorkerState where
  deduper : DuplicateFilter
  metrics : MetricsAggregator
deriving DecidableEq, Repr

/-- One call into the aggregator, recorded for the effect trace. -/
inductive RecordCall where
  | order (orderId : Option String)
  | inventory (isFailure : Bool)
  | dup
deriving DecidableEq, Repr

/-- `KafkaAnalyticsWorker._handle_message`: decode (a `ValueError` is caught
and the message skipped), register the event identity, then either record a
duplicate, record by topic (order before inventory, matching the
`if`/`elif` chain), or ignore an unexpected topic.  Returns the new state
and the list of aggregator record calls made. -/
def handleMessage (env : WorkerEnv) (st : WorkerState) (now : ℚ)
    (topic : String) (messageKey : Option String) (value : RawValue) :
    WorkerState × List RecordCall :=
  match decodePayload value with
  | Except.error _ => (st, [])
  | Except.ok payload =>
    if (st.deduper.register now (eventId topic messageKey payload)).1 then
      ({ deduper := (st.deduper.register now (eventId topic messageKey payload)).2,
         metrics := st.metrics.record_duplicate },
       [RecordCall.dup])
    else if topic = env.orderTopic then
      ({ deduper := (st.deduper.register now (eventId topic messageKey payload)).2,
         metrics := st.metrics.record_order now (resolveOrderId messageKey payload) },
       [RecordCall.order (resolveOrderId messageKey payload)])
    else if topic = env.inventoryTopic then
      ({ deduper := (st.deduper.register now (eventId topic messageKey payload)).2,
         metrics := st.metrics.record_inventory now
           ((pyStr (dictGetD payload "status" (JVal.jstr ""))).toLower = "failure") },
       [RecordCall.inventory
         ((pyStr (dictGetD payload "status" (JVal.jstr ""))).toLower = "failure")])
    else
      ({ deduper := (st.deduper.register now (eventId topic messageKey payload)).2,
         metrics := st.metrics }, [])

/-- The body of `KafkaAnalyticsWorker.run` for one successfully polled
message: `_handle_message` followed unconditionally by
`self._consumer.commit(message=msg, asynchronous=False)` — the commit is
not guarded by the decode outcome.  The final component reports whether a
commit was issued for this message. -/
def workerStep (env : WorkerEnv) (st : WorkerState) (now : ℚ)
    (topic : String) (messageKey : Option String) (value : RawValue) :
    WorkerState × List RecordCall × Bool :=
  ((handleMessage env st now topic messageKey value).1,
   (handleMessage env st now topic messageKey value).2, true)

/-- The state transformation of one `_handle_message` call, for iterating
repeated deliveries of the same message. -/
def stepWorker (env : WorkerEnv) (now : ℚ) (topic : String)
    (messageKey : Option String) (value : RawValue) (st : WorkerState) :
    WorkerState :=
  (handleMessage env st now topic messageKey value).1

/-- Invariant of a reachable `DuplicateFilter` state: the deque is sorted by
timestamp, identities in the deque are distinct, the dict keys are distinct,
and the dict holds exactly the (identity, timestamp) pairs of the deque. -/
structure DFInv (f : DuplicateFilter) : Prop where
  sorted : f.order.Pairwise (fun a b => a.1 ≤ b.1)
  idsNodup : (f.order.map Prod.snd).Nodup
  keysNodup : (f.seen.map Prod.fst).Nodup
  agree : ∀ eid ts, dictGet f.seen eid = some ts ↔ (ts, eid) ∈ f.order

/-- Invariant of a reachable `UniqueOrderWindow` state: the deque is sorted
by timestamp, the dict keys are distinct, every dict binding also sits in
the deque, and the window is at least the clamp minimum 1. -/
structure UOWInv (w : UniqueOrderWindow) : Prop where
  sorted : w.order.Pairwise (fun a b => a.1 ≤ b.1)
  keysNodup : (w.entries.map Prod.fst).Nodup
  mem : ∀ oid ts, dictGet w.entries oid = some ts → (ts, oid) ∈ w.order
  wmin : 1 ≤ w.window

/-- Invariant of a `FailureWindow` state: the incrementally maintained
`_failures` counter equals the number of failure-flagged live events. -/
def FWInv (fw : FailureWindow) : Prop :=
  fw.failures = (fw.events.filter (fun e => e.2)).length

/-- All deque timestamps are at most `now` (the wall clock never ran
backwards relative to the stored entries). -/
def TimeBound (order : List (ℚ × String)) (now : ℚ) : Prop :=
  ∀ e ∈ order, e.1 ≤ now

theorem dictGet_eq_none_of_not_mem_keys {α : Type u} {d : List (String × α)}
    {k : String} (h : k ∉ d.map Prod.fst) : dictGet d k = none := by
  induction d with
  | nil => rfl
  | cons kv rest ih =>
    simp only [List.map_cons, List.mem_cons, not_or] at h
    simp only [dictGet]
    rw [if_neg (fun hk => h.1 hk.symm), ih h.2]

theorem mem_keys_of_dictGet_eq_some {α : Type u} {d : List (String × α)}
    {k : String} {v : α} (h : dictGet d k = some v) : k ∈ d.map Prod.fst := by
  by_contra hk
  rw [dictGet_eq_none_of_not_mem_keys hk] at h
  exact Option.noConfusion h

theorem dictGet_dictSet {α : Type u} (d : List (String × α)) (k : String)
    (v : α) (x : String) :
    dictGet (dictSet d k v) x = if k = x then some v else dictGet d x := by
  induction d with
  | nil =>
    simp only [dictSet, dictGet]
  | cons kv rest ih =>
    by_cases h1 : kv.1 = k
    · simp only [dictSet, h1, if_pos rfl, dictGet]
      by_cases h2 : k = x
      · simp [h2]
      · simp [h2, dictGet, h1]
    · simp only [dictSet, if_neg h1, dictGet]
      by_cases h2 : kv.1 = x
      · have : ¬ k = x := fun hkx => h1 (h2.trans hkx.symm)
        simp [h2, this]
      · simp [h2, ih]

theorem dictPop_sublist {α : Type u} (d : List (String × α)) (k : String) :
    List.Sublist (dictPop d k) d := by
  induction d with
  | nil => exact List.Sublist.refl _
  | cons kv rest ih =>
    simp only [dictPop]
    by_cases h : kv.1 = k
    · rw [if_pos h]; exact List.sublist_cons_self kv rest
    · rw [if_neg h]; exact List.Sublist.cons₂ kv ih

theorem dictGet_dictPop {α : Type u} {d : List (String × α)}
    (hk : (d.map Prod.fst).Nodup) (k x : String) :
    dictGet (dictPop d k) x = if x = k then none else dictGet d x := by
  induction d with
  | nil => simp [dictPop, dictGet]
  | cons kv rest ih =>
    simp only [List.map_cons, List.nodup_cons] at hk
    by_cases h1 : kv.1 = k
    · have hpop : dictPop (kv :: rest) k = rest := by simp [dictPop, h1]
      rw [hpop]
      by_cases h2 : x = k
      · rw [if_pos h2]
        subst h2
        exact dictGet_eq_none_of_not_mem_keys (h1 ▸ hk.1)
      · rw [if_neg h2]
        show dictGet rest x = dictGet (kv :: rest) x
        simp only [dictGet]
        rw [if_neg (fun hx : kv.1 = x => h2 (hx ▸ h1))]
    · have hpop : dictPop (kv :: rest) k = kv :: dictPop rest k := by
        simp [dictPop, h1]
      rw [hpop]
      simp only [dictGet]
      by_cases h2 : kv.1 = x
      · have hxk : ¬ x = k := fun hxk => h1 (h2.trans hxk)
        simp [h2, hxk]
      · rw [if_neg h2, ih hk.2]
        by_cases h3 : x = k
        · simp [h3]
        · simp [h3, h2]

theorem dictSet_keys {α : Type u} (d : List (String × α)) (k : String) (v : α) :
    (dictSet d k v).map Prod.fst =
      if k ∈ d.map Prod.fst then d.map Prod.fst else d.map Prod.fst ++ [k] := by
  induction d with
  | nil => simp [dictSet]
  | cons kv rest ih =>
    simp only [dictSet]
    by_cases h1 : kv.1 = k
    · simp [h1]
    · have : ¬ k = kv.1 := fun h => h1 h.symm
      by_cases h2 : k ∈ rest.map Prod.fst
      · simp [h1, h2, this, ih]
      · simp [h1, h2, this, ih]

theorem dfEvictLoop_idem (cutoff : ℚ) :
    ∀ (order : List (ℚ × String)) (seen : List (String × ℚ)),
      dfEvictLoop (dfEvictLoop seen order cutoff).1
        (dfEvictLoop seen order cutoff).2 cutoff
        = dfEvictLoop seen order cutoff := by
  intro order
  induction order with
  | nil => intro seen; simp [dfEvictLoop]
  | cons e rest ih =>
    obtain ⟨ts0, e0⟩ := e
    intro seen
    by_cases hlt : ts0 < cutoff
    · rw [show dfEvictLoop seen ((ts0, e0) :: rest) cutoff
          = dfEvictLoop (dictPop seen e0) rest cutoff by simp [dfEvictLoop, hlt]]
      exact ih _
    · rw [show dfEvictLoop seen ((ts0, e0) :: rest) cutoff
          = (seen, (ts0, e0) :: rest) by simp [dfEvictLoop, hlt]]
      simp [dfEvictLoop, hlt]

theorem fwEvictLoop_idem (cutoff : ℚ) :
    ∀ (events : List (ℚ × Bool)) (failures : Nat),
      fwEvictLoop (fwEvictLoop events failures cutoff).1
        (fwEvictLoop events failures cutoff).2 cutoff
        = fwEvictLoop events failures cutoff := by
  intro events
  induction events with
  | nil => intro failures; simp [fwEvictLoop]
  | cons e rest ih =>
    obtain ⟨ts0, b0⟩ := e
    intro failures
    by_cases hlt : ts0 < cutoff
    · rw [show fwEvictLoop ((ts0, b0) :: rest) failures cutoff
          = fwEvictLoop rest (if b0 then failures - 1 else failures) cutoff by
        simp [fwEvictLoop, hlt]]
      exact ih _
    · rw [show fwEvictLoop ((ts0, b0) :: rest) failures cutoff
          = ((ts0, b0) :: rest, failures) by simp [fwEvictLoop, hlt]]
      simp [fwEvictLoop, hlt]

theorem uowEvictLoop_idem (cutoff : ℚ) :
    ∀ (order : List (ℚ × String)) (entries : List (String × ℚ)),
      uowEvictLoop (uowEvictLoop entries order cutoff).1
        (uowEvictLoop entries order cutoff).2 cutoff
        = uowEvictLoop entries order cutoff := by
  intro order
  induction order with
  | nil => intro entries; simp [uowEvictLoop]
  | cons e rest ih =>
    obtain ⟨ts0, o0⟩ := e
    intro entries
    by_cases hlt : ts0 < cutoff
    · rw [show uowEvictLoop entries ((ts0, o0) :: rest) cutoff
          = uowEvictLoop (if dictGet entries o0 = some ts0 then dictPop entries o0
              else entries) rest cutoff by simp [uowEvictLoop, hlt]]
      exact ih _
    · rw [show uowEvictLoop entries ((ts0, o0) :: rest) cutoff
          = (entries, (ts0, o0) :: rest) by simp [uowEvictLoop, hlt]]
      simp [uowEvictLoop, hlt]

theorem dfEvict_idem (f : DuplicateFilter) (now : ℚ) :
    (f.evict now).evict now = f.evict now := by
  simp only [DuplicateFilter.evict]
  rw [dfEvictLoop_idem]

theorem fwEvict_idem (fw : FailureWindow) (now : ℚ) :
    (fw.evict now).evict now = fw.evict now := by
  simp only [FailureWindow.evict]
  rw [fwEvictLoop_idem]

theorem dfEvictLoop_spec (cutoff : ℚ) :
    ∀ (order : List (ℚ × String)) (seen : List (String × ℚ)),
      order.Pairwise (fun a b => a.1 ≤ b.1) →
      (order.map Prod.snd).Nodup →
      (seen.map Prod.fst).Nodup →
      (∀ eid ts, dictGet seen eid = some ts ↔ (ts, eid) ∈ order) →
      (∀ eid ts, dictGet (dfEvictLoop seen order cutoff).1 eid = some ts ↔
        (dictGet seen eid = some ts ∧ cutoff ≤ ts))
      ∧ (∀ eid ts, dictGet (dfEvictLoop seen order cutoff).1 eid = some ts ↔
        (ts, eid) ∈ (dfEvictLoop seen order cutoff).2)
      ∧ List.IsSuffix (dfEvictLoop seen order cutoff).2 order
      ∧ List.Sublist (dfEvictLoop seen order cutoff).1 seen := by
  intro order
  induction order with
  | nil =>
    intro seen _ _ _ hagree
    simp only [dfEvictLoop]
    refine ⟨?_, ?_, List.suffix_refl _, List.Sublist.refl _⟩
    · intro eid ts
      constructor
      · intro h
        exact absurd ((hagree eid ts).mp h) (List.not_mem_nil _)
      · intro h
        exact absurd ((hagree eid ts).mp h.1) (List.not_mem_nil _)
    · intro eid ts
      exact hagree eid ts
  | cons e rest ih =>
    obtain ⟨ts0, e0⟩ := e
    intro seen hsorted hids hkeys hagree
    have hids2 : (rest.map Prod.snd).Nodup := (List.nodup_cons.mp (by simpa using hids)).2
    have he0 : e0 ∉ rest.map Prod.snd := (List.nodup_cons.mp (by simpa using hids)).1
    have hsorted2 : rest.Pairwise (fun a b => a.1 ≤ b.1) := hsorted.of_cons
    have hhead : ∀ b ∈ rest, ts0 ≤ b.1 := (List.pairwise_cons.mp hsorted).1
    have hget0 : dictGet seen e0 = some ts0 :=
      (hagree e0 ts0).mpr (List.mem_cons_self _ _)
    by_cases hlt : ts0 < cutoff
    · have hloop : dfEvictLoop seen ((ts0, e0) :: rest) cutoff
          = dfEvictLoop (dictPop seen e0) rest cutoff := by
        simp [dfEvictLoop, hlt]
      have hkeys2 : ((dictPop seen e0).map Prod.fst).Nodup :=
        hkeys.sublist ((dictPop_sublist seen e0).map Prod.fst)
      have hagree2 : ∀ eid ts, dictGet (dictPop seen e0) eid = some ts ↔
          (ts, eid) ∈ rest := by
        intro eid ts
        rw [dictGet_dictPop hkeys e0 eid]
        by_cases heq : eid = e0
        · subst heq
          rw [if_pos rfl]
          constructor
          · intro h; exact absurd h (by simp)
          · intro hmem
            exact absurd (by simpa using List.mem_map_of_mem Prod.snd hmem) he0
        · rw [if_neg heq, hagree eid ts]
          constructor
          · intro h
            rcases List.mem_cons.mp h with h1 | h1
            · exact absurd (congrArg Prod.snd h1) heq
            · exact h1
          · exact fun h => List.mem_cons_of_mem _ h
      obtain ⟨ih1, ih2, ih3, ih4⟩ := ih (dictPop seen e0) hsorted2 hids2 hkeys2 hagree2
      refine ⟨?_, ?_, ?_, ?_⟩
      · intro eid ts
        rw [hloop, ih1 eid ts, dictGet_dictPop hkeys e0 eid]
        by_cases heq : eid = e0
        · subst heq
          rw [if_pos rfl]
          constructor
          · rintro ⟨h, _⟩; exact absurd h (by simp)
          · rintro ⟨h, hc⟩
            have hts : ts = ts0 := by
              rw [hget0] at h
              exact (Option.some.inj h).symm
            exact absurd hc (by rw [hts]; exact not_le.mpr hlt)
        · rw [if_neg heq]
      · intro eid ts
        rw [hloop]
        exact ih2 eid ts
      · rw [hloop]
        exact ih3.trans (List.suffix_cons (ts0, e0) rest)
      · rw [hloop]
        exact ih4.trans (dictPop_sublist seen e0)
    · have hloop : dfEvictLoop seen ((ts0, e0) :: rest) cutoff
          = (seen, (ts0, e0) :: rest) := by
        simp [dfEvictLoop, hlt]
      have hcut : ∀ eid ts, dictGet seen eid = some ts → cutoff ≤ ts := by
        intro eid ts h
        rcases List.mem_cons.mp ((hagree eid ts).mp h) with h1 | h1
        · have : ts = ts0 := congrArg Prod.fst h1
          rw [this]
          exact not_lt.mp hlt
        · exact le_trans (not_lt.mp hlt) (hhead _ h1)
      refine ⟨?_, ?_, ?_, ?_⟩
      · intro eid ts
        rw [hloop]
        exact ⟨fun h => ⟨h, hcut eid ts h⟩, fun h => h.1⟩
      · intro eid ts
        rw [hloop]
        exact hagree eid ts
      · rw [hloop]
      · rw [hloop]

theorem uowEvictLoop_spec (cutoff : ℚ) :
    ∀ (order : List (ℚ × String)) (entries : List (String × ℚ)),
      order.Pairwise (fun a b => a.1 ≤ b.1) →
      (entries.map Prod.fst).Nodup →
      (∀ oid ts, dictGet entries oid = some ts → (ts, oid) ∈ order) →
      (∀ oid ts, dictGet (uowEvictLoop entries order cutoff).1 oid = some ts ↔
        (dictGet entries oid = some ts ∧ cutoff ≤ ts))
      ∧ (∀ oid ts, dictGet (uowEvictLoop entries order cutoff).1 oid = some ts →
        (ts, oid) ∈ (uowEvictLoop entries order cutoff).2)
      ∧ List.IsSuffix (uowEvictLoop entries order cutoff).2 order
      ∧ List.Sublist (uowEvictLoop entries order cutoff).1 entries := by
  intro order
  induction order with
  | nil =>
    intro entries _ _ hmem
    simp only [uowEvictLoop]
    refine ⟨?_, hmem, List.suffix_refl _, List.Sublist.refl _⟩
    intro oid ts
    constructor
    · intro h
      exact absurd (hmem oid ts h) (List.not_mem_nil _)
    · intro h
      exact absurd (hmem oid ts h.1) (List.not_mem_nil _)
  | cons e rest ih =>
    obtain ⟨ts0, o0⟩ := e
    intro entries hsorted hkeys hmem
    have hsorted2 : rest.Pairwise (fun a b => a.1 ≤ b.1) := hsorted.of_cons
    have hhead : ∀ b ∈ rest, ts0 ≤ b.1 := (List.pairwise_cons.mp hsorted).1
    by_cases hlt : ts0 < cutoff
    · have hloop : uowEvictLoop entries ((ts0, o0) :: rest) cutoff
          = uowEvictLoop (if dictGet entries o0 = some ts0 then dictPop entries o0
              else entries) rest cutoff := by
        simp [uowEvictLoop, hlt]
      by_cases hpop : dictGet entries o0 = some ts0
      · rw [if_pos hpop] at hloop
        have hkeys2 : ((dictPop entries o0).map Prod.fst).Nodup :=
          hkeys.sublist ((dictPop_sublist entries o0).map Prod.fst)
        have hmem2 : ∀ oid ts, dictGet (dictPop entries o0) oid = some ts →
            (ts, oid) ∈ rest := by
          intro oid ts h
          rw [dictGet_dictPop hkeys o0 oid] at h
          by_cases heq : oid = o0
          · rw [if_pos heq] at h
            exact absurd h (by simp)
          · rw [if_neg heq] at h
            rcases List.mem_cons.mp (hmem oid ts h) with h1 | h1
            · exact absurd (congrArg Prod.snd h1) heq
            · exact h1
        obtain ⟨ih1, ih2, ih3, ih4⟩ := ih (dictPop entries o0) hsorted2 hkeys2 hmem2
        refine ⟨?_, ?_, ?_, ?_⟩
        · intro oid ts
          rw [hloop, ih1 oid ts, dictGet_dictPop hkeys o0 oid]
          by_cases heq : oid = o0
          · subst heq
            rw [if_pos rfl]
            constructor
            · rintro ⟨h, _⟩; exact absurd h (by simp)
            · rintro ⟨h, hc⟩
              have hts : ts = ts0 := by
                rw [hpop] at h
                exact (Option.some.inj h).symm
              exact absurd hc (by rw [hts]; exact not_le.mpr hlt)
          · rw [if_neg heq]
        · intro oid ts
          rw [hloop]
          exact ih2 oid ts
        · rw [hloop]
          exact ih3.trans (List.suffix_cons (ts0, o0) rest)
        · rw [hloop]
          exact ih4.trans (dictPop_sublist entries o0)
      · rw [if_neg hpop] at hloop
        have hmem2 : ∀ oid ts, dictGet entries oid = some ts → (ts, oid) ∈ rest := by
          intro oid ts h
          rcases List.mem_cons.mp (hmem oid ts h) with h1 | h1
          · refine absurd ?_ hpop
            have hts : ts = ts0 := congrArg Prod.fst h1
            have hoid : oid = o0 := congrArg Prod.snd h1
            rw [← hoid, ← hts]
            exact h
          · exact h1
        obtain ⟨ih1, ih2, ih3, ih4⟩ := ih entries hsorted2 hkeys hmem2
        refine ⟨?_, ?_, ?_, ?_⟩
        · intro oid ts
          rw [hloop]
          exact ih1 oid ts
        · intro oid ts
          rw [hloop]
          exact ih2 oid ts
        · rw [hloop]
          exact ih3.trans (List.suffix_cons (ts0, o0) rest)
        · rw [hloop]
          exact ih4
    · have hloop : uowEvictLoop entries ((ts0, o0) :: rest) cutoff
          = (entries, (ts0, o0) :: rest) := by
        simp [uowEvictLoop, hlt]
      have hcut : ∀ oid ts, dictGet entries oid = some ts → cutoff ≤ ts := by
        intro oid ts h
        rcases List.mem_cons.mp (hmem oid ts h) with h1 | h1
        · have : ts = ts0 := congrArg Prod.fst h1
          rw [this]
          exact not_lt.mp hlt
        · exact le_trans (not_lt.mp hlt) (hhead _ h1)
      refine ⟨?_, ?_, ?_, ?_⟩
      · intro oid ts
        rw [hloop]
        exact ⟨fun h => ⟨h, hcut oid ts h⟩, fun h => h.1⟩
      · intro oid ts
        rw [hloop]
        exact hmem oid ts
      · rw [hloop]
      · rw [hloop]

theorem fwEvictLoop_inv (cutoff : ℚ) :
    ∀ (events : List (ℚ × Bool)) (failures : Nat),
      failures = (events.filter (fun e => e.2)).length →
      (fwEvictLoop events failures cutoff).2
        = ((fwEvictLoop events failures cutoff).1.filter (fun e => e.2)).length := by
  intro events
  induction events with
  | nil =>
    intro failures h
    simpa [fwEvictLoop] using h
  | cons e rest ih =>
    obtain ⟨ts0, b0⟩ := e
    intro failures h
    by_cases hlt : ts0 < cutoff
    · rw [show fwEvictLoop ((ts0, b0) :: rest) failures cutoff
          = fwEvictLoop rest (if b0 then failures - 1 else failures) cutoff by
        simp [fwEvictLoop, hlt]]
      apply ih
      cases b0 with
      | true =>
        simp only [List.filter_cons] at h
        simp at h ⊢
        omega
      | false =>
        simpa [List.filter_cons] using h
    · rw [show fwEvictLoop ((ts0, b0) :: rest) failures cutoff
          = ((ts0, b0) :: rest, failures) by simp [fwEvictLoop, hlt]]
      exact h

theorem TimeBound.of_sublist {l1 l2 : List (ℚ × String)} (h : List.Sublist l1 l2)
    {now : ℚ} (hb : TimeBound l2 now) : TimeBound l1 now :=
  fun e he => hb e (h.subset he)

theorem TimeBound.mono {l : List (ℚ × String)} {t1 t2 : ℚ} (h : t1 ≤ t2)
    (hb : TimeBound l t1) : TimeBound l t2 :=
  fun e he => le_trans (hb e he) h

theorem DFInv_init (ttlSeconds : ℚ) : DFInv (DuplicateFilter.init ttlSeconds) := by
  refine ⟨List.Pairwise.nil, List.nodup_nil, List.nodup_nil, ?_⟩
  intro eid ts
  simp [DuplicateFilter.init, dictGet]

theorem DFInv_evict {f : DuplicateFilter} (hInv : DFInv f) (now : ℚ) :
    DFInv (f.evict now)
    ∧ (∀ eid ts, dictGet (f.evict now).seen eid = some ts ↔
        (dictGet f.seen eid = some ts ∧ now - f.ttl ≤ ts))
    ∧ List.IsSuffix (f.evict now).order f.order := by
  obtain ⟨h1, h2, h3, h4⟩ :=
    dfEvictLoop_spec (now - f.ttl) f.order f.seen hInv.sorted hInv.idsNodup
      hInv.keysNodup hInv.agree
  have hsuffix : List.IsSuffix (f.evict now).order f.order := h3
  refine ⟨⟨?_, ?_, ?_, ?_⟩, h1, hsuffix⟩
  · exact hInv.sorted.sublist hsuffix.sublist
  · exact hInv.idsNodup.sublist (hsuffix.sublist.map Prod.snd)
  · exact hInv.keysNodup.sublist (h4.map Prod.fst)
  · exact h2

theorem dictGet_isSome_of_mem_keys {α : Type u} {d : List (String × α)}
    {k : String} (h : k ∈ d.map Prod.fst) : (dictGet d k).isSome := by
  induction d with
  | nil => simp at h
  | cons kv rest ih =>
    simp only [List.map_cons, List.mem_cons] at h
    simp only [dictGet]
    by_cases h1 : kv.1 = k
    · rw [if_pos h1]; rfl
    · rw [if_neg h1]
      exact ih (h.resolve_left (fun hk => h1 hk.symm))

theorem not_mem_keys_of_dictGet_eq_none {α : Type u} {d : List (String × α)}
    {k : String} (h : dictGet d k = none) : k ∉ d.map Prod.fst := by
  intro hmem
  have := dictGet_isSome_of_mem_keys hmem
  rw [h] at this
  simp at this

theorem DFInv_register {f : DuplicateFilter} (hInv : DFInv f) {now : ℚ}
    (hb : TimeBound f.order now) (eid : String) :
    DFInv (f.register now eid).2 ∧ TimeBound (f.register now eid).2.order now := by
  obtain ⟨hInv1, hchar, hsuffix⟩ := DFInv_evict hInv now
  have hb1 : TimeBound (f.evict now).order now := TimeBound.of_sublist hsuffix.sublist hb
  by_cases hdup : (dictGet (f.evict now).seen eid).isSome
  · have hr : f.register now eid = (true, f.evict now) := by
      simp only [DuplicateFilter.register]
      rw [if_pos hdup]
    rw [hr]
    exact ⟨hInv1, hb1⟩
  · have hnone : dictGet (f.evict now).seen eid = none := by
      cases hget : dictGet (f.evict now).seen eid with
      | none => rfl
      | some t => rw [hget] at hdup; simp at hdup
    have hr : f.register now eid
        = (false, { f.evict now with
            seen := dictSet (f.evict now).seen eid now,
            order := (f.evict now).order ++ [(now, eid)] }) := by
      simp only [DuplicateFilter.register]
      rw [if_neg hdup]
    rw [hr]
    have hnotmem : eid ∉ (f.evict now).order.map Prod.snd := by
      intro hmem
      obtain ⟨a, ha, ha2⟩ := List.mem_map.mp hmem
      have hmem2 : (a.1, eid) ∈ (f.evict now).order := by
        rw [← ha2]
        simpa using ha
      have := (hInv1.agree eid a.1).mpr hmem2
      rw [hnone] at this
      exact Option.noConfusion this
    have hnotkey : eid ∉ (f.evict now).seen.map Prod.fst :=
      not_mem_keys_of_dictGet_eq_none hnone
    refine ⟨⟨?_, ?_, ?_, ?_⟩, ?_⟩
    · refine List.pairwise_append.mpr ⟨hInv1.sorted, List.pairwise_singleton _ _, ?_⟩
      intro a ha b hbmem
      have hbeq : b = (now, eid) := List.mem_singleton.mp hbmem
      rw [hbeq]
      exact hb1 a ha
    · rw [List.map_append]
      simp only [List.map_cons, List.map_nil]
      rw [List.nodup_append]
      exact ⟨hInv1.idsNodup, List.nodup_singleton _,
        fun x hx ha => hnotmem ((List.mem_singleton.mp ha) ▸ hx)⟩
    · rw [dictSet_keys, if_neg hnotkey, List.nodup_append]
      exact ⟨hInv1.keysNodup, List.nodup_singleton _,
        fun x hx ha => hnotkey ((List.mem_singleton.mp ha) ▸ hx)⟩
    · intro x ts
      show dictGet (dictSet (f.evict now).seen eid now) x = some ts ↔
        (ts, x) ∈ (f.evict now).order ++ [(now, eid)]
      rw [dictGet_dictSet]
      by_cases hx : eid = x
      · subst hx
        rw [if_pos rfl]
        constructor
        · intro h
          have : ts = now := (Option.some.inj h).symm
          rw [this]
          exact List.mem_append_right _ (List.mem_singleton.mpr rfl)
        · intro h
          rcases List.mem_append.mp h with h1 | h1
          · have := (hInv1.agree eid ts).mpr h1
            rw [hnone] at this
            exact Option.noConfusion this
          · have heq : (ts, eid) = (now, eid) := List.mem_singleton.mp h1
            injection heq with h2 h3
            rw [h2]
      · rw [if_neg hx]
        rw [hInv1.agree x ts]
        constructor
        · intro h
          exact List.mem_append_left _ h
        · intro h
          rcases List.mem_append.mp h with h1 | h1
          · exact h1
          · have := List.mem_singleton.mp h1
            exact absurd (congrArg Prod.snd this).symm hx
    · intro e he
      rcases List.mem_append.mp he with h1 | h1
      · exact hb1 e h1
      · rw [List.mem_singleton.mp h1]

theorem UOWInv_init (windowSeconds : ℚ) : UOWInv (UniqueOrderWindow.init windowSeconds) := by
  refine ⟨List.Pairwise.nil, List.nodup_nil, ?_, le_max_right _ _⟩
  intro oid ts h
  simp [UniqueOrderWindow.init, dictGet] at h

theorem UOWInv_evict {w : UniqueOrderWindow} (hInv : UOWInv w) (now : ℚ) :
    UOWInv (w.evict now)
    ∧ (∀ oid ts, dictGet (w.evict now).entries oid = some ts ↔
        (dictGet w.entries oid = some ts ∧ now - w.window ≤ ts))
    ∧ List.IsSuffix (w.evict now).order w.order := by
  obtain ⟨h1, h2, h3, h4⟩ :=
    uowEvictLoop_spec (now - w.window) w.order w.entries hInv.sorted
      hInv.keysNodup hInv.mem
  exact ⟨⟨hInv.sorted.sublist h3.sublist, hInv.keysNodup.sublist (h4.map Prod.fst),
    h2, hInv.wmin⟩, h1, h3⟩

theorem UOWInv_mid {w : UniqueOrderWindow} (hInv : UOWInv w) {now : ℚ}
    (hb : TimeBound w.order now) (oid : String) :
    UOWInv { w with entries := dictSet w.entries oid now,
                    order := w.order ++ [(now, oid)] }
    ∧ TimeBound (w.order ++ [(now, oid)]) now := by
  refine ⟨⟨?_, ?_, ?_, hInv.wmin⟩, ?_⟩
  · refine List.pairwise_append.mpr ⟨hInv.sorted, List.pairwise_singleton _ _, ?_⟩
    intro a ha b hbmem
    rw [List.mem_singleton.mp hbmem]
    exact hb a ha
  · show ((dictSet w.entries oid now).map Prod.fst).Nodup
    rw [dictSet_keys]
    by_cases hk : oid ∈ w.entries.map Prod.fst
    · rw [if_pos hk]
      exact hInv.keysNodup
    · rw [if_neg hk, List.nodup_append]
      exact ⟨hInv.keysNodup, List.nodup_singleton _,
        fun x hx ha => hk ((List.mem_singleton.mp ha) ▸ hx)⟩
  · intro x ts h
    rw [dictGet_dictSet] at h
    by_cases hx : oid = x
    · subst hx
      rw [if_pos rfl] at h
      have : ts = now := (Option.some.inj h).symm
      rw [this]
      exact List.mem_append_right _ (List.mem_singleton.mpr rfl)
    · rw [if_neg hx] at h
      exact List.mem_append_left _ (hInv.mem x ts h)
  · intro e he
    rcases List.mem_append.mp he with h1 | h1
    · exact hb e h1
    · rw [List.mem_singleton.mp h1]

theorem track_eq_of_ne {w : UniqueOrderWindow} {now : ℚ} {oid : String}
    (hmt : ¬ oid = "") :
    w.track now (some oid)
      = UniqueOrderWindow.evict
          { w with entries := dictSet w.entries oid now,
                   order := w.order ++ [(now, oid)] } now := by
  simp [UniqueOrderWindow.track, hmt]

theorem UOWInv_track {w : UniqueOrderWindow} (hInv : UOWInv w) {now : ℚ}
    (hb : TimeBound w.order now) (orderId : Option String) :
    UOWInv (w.track now orderId) ∧ TimeBound (w.track now orderId).order now := by
  match orderId with
  | none => exact ⟨hInv, hb⟩
  | some oid =>
    by_cases hmt : oid = ""
    · rw [show w.track now (some oid) = w by simp [UniqueOrderWindow.track, hmt]]
      exact ⟨hInv, hb⟩
    · rw [track_eq_of_ne hmt]
      obtain ⟨hInvMid, hbMid⟩ := UOWInv_mid hInv hb oid
      obtain ⟨hi, _, hsuf⟩ := UOWInv_evict hInvMid now
      exact ⟨hi, TimeBound.of_sublist hsuf.sublist hbMid⟩

theorem FWInv_init (windowSeconds : ℚ) : FWInv (FailureWindow.init windowSeconds) := rfl

theorem FWInv_evict {fw : FailureWindow} (h : FWInv fw) (now : ℚ) :
    FWInv (fw.evict now) :=
  fwEvictLoop_inv (now - fw.window) fw.events fw.failures h

theorem FWInv_track {fw : FailureWindow} (h : FWInv fw) (now : ℚ) (b : Bool) :
    FWInv (fw.track now b) := by
  refine FWInv_evict ?_ now
  show (if b then fw.failures + 1 else fw.failures)
      = ((fw.events ++ [(now, b)]).filter (fun e => e.2)).length
  rw [List.filter_append]
  cases b with
  | true =>
    simp
    exact h
  | false =>
    simp
    exact h

theorem FailureWindow.totals_again (fw : FailureWindow) (now : ℚ) :
    ((fw.totals now).2).totals now = ((fw.totals now).1, (fw.totals now).2) := by
  simp only [FailureWindow.totals]
  rw [fwEvict_idem]

theorem DuplicateFilter.register_again {f : DuplicateFilter} {now : ℚ} {eid : String}
    (h : (f.register now eid).1 = true) :
    (f.register now eid).2.register now eid = (true, (f.register now eid).2) := by
  have hdup : (dictGet (f.evict now).seen eid).isSome := by
    by_contra hc
    have hfalse : (f.register now eid).1 = false := by
      simp only [DuplicateFilter.register]
      rw [if_neg hc]
    rw [h] at hfalse
    exact Bool.noConfusion hfalse
  have h2 : (f.register now eid).2 = f.evict now := by
    simp only [DuplicateFilter.register]
    rw [if_pos hdup]
  rw [h2]
  simp only [DuplicateFilter.register, dfEvict_idem]
  rw [if_pos hdup]

theorem handleMessage_congr_ok {value : RawValue} {p : Payload}
    (hdec : decodePayload value = Except.ok p) (env : WorkerEnv) (st : WorkerState)
    (now : ℚ) (topic : String) (messageKey : Option String) :
    handleMessage env st now topic messageKey value
      = handleMessage env st now topic messageKey (RawValue.wellFormed p) := by
  cases value with
  | absent =>
    have hp : ([] : Payload) = p := by simpa [decodePayload] using hdec
    rw [← hp]
    exact rfl
  | wellFormed q =>
    have hp : q = p := by simpa [decodePayload] using hdec
    rw [hp]
  | malformed e => simp [decodePayload] at hdec

theorem handleMessage_decode_error {value : RawValue} {e : String}
    (hdec : decodePayload value = Except.error e) (env : WorkerEnv)
    (st : WorkerState) (now : ℚ) (topic : String) (messageKey : Option String) :
    handleMessage env st now topic messageKey value = (st, []) := by
  cases value with
  | absent => simp [decodePayload] at hdec
  | wellFormed q => simp [decodePayload] at hdec
  | malformed e2 => rfl

theorem handleMessage_wf_dup {env : WorkerEnv} {st : WorkerState} {now : ℚ}
    {topic : String} {messageKey : Option String} {p : Payload}
    (hdup : (st.deduper.register now (eventId topic messageKey p)).1 = true) :
    handleMessage env st now topic messageKey (RawValue.wellFormed p)
      = ({ deduper := (st.deduper.register now (eventId topic messageKey p)).2,
           metrics := st.metrics.record_duplicate }, [RecordCall.dup]) := by
  simp only [handleMessage, decodePayload]
  rw [if_pos hdup]

theorem handleMessage_wf_order {env : WorkerEnv} {st : WorkerState} {now : ℚ}
    {topic : String} {messageKey : Option String} {p : Payload}
    (hfresh : (st.deduper.register now (eventId topic messageKey p)).1 = false)
    (htopic : topic = env.orderTopic) :
    handleMessage env st now topic messageKey (RawValue.wellFormed p)
      = ({ deduper := (st.deduper.register now (eventId topic messageKey p)).2,
           metrics := st.metrics.record_order now (resolveOrderId messageKey p) },
         [RecordCall.order (resolveOrderId messageKey p)]) := by
  simp only [handleMessage, decodePayload]
  rw [hfresh]
  simp only [Bool.false_eq_true, if_false]
  rw [if_pos htopic]

theorem handleMessage_wf_inventory {env : WorkerEnv} {st : WorkerState} {now : ℚ}
    {topic : String} {messageKey : Option String} {p : Payload}
    (hfresh : (st.deduper.register now (eventId topic messageKey p)).1 = false)
    (hnotord : ¬ topic = env.orderTopic) (htopic : topic = env.inventoryTopic) :
    handleMessage env st now topic messageKey (RawValue.wellFormed p)
      = ({ deduper := (st.deduper.register now (eventId topic messageKey p)).2,
           metrics := st.metrics.record_inventory now
             ((pyStr (dictGetD p "status" (JVal.jstr ""))).toLower = "failure") },
         [RecordCall.inventory
           ((pyStr (dictGetD p "status" (JVal.jstr ""))).toLower = "failure")]) := by
  simp only [handleMessage, decodePayload]
  rw [hfresh]
  simp only [Bool.false_eq_true, if_false]
  rw [if_neg hnotord, if_pos htopic]

theorem snapshot_ignores_duplicates (m : MetricsAggregator) (d : Nat) (t : ℚ) :
    (({ m with duplicates := d } : MetricsAggregator).snapshot t).1
      = (m.snapshot t).1 := rfl

/-- C6: `FailureWindow.failure_rate_pct` on a window with no live entries
(total 0 after eviction) returns 0.0 and never divides: the division by the
total is taken only in the branch where the total is non-zero. -/
theorem spec_C6_empty_rate_zero (fw : FailureWindow) (now : ℚ)
    (h : ((fw.totals now).1).1 = 0) :
    (fw.failure_rate_pct now).1 = 0 := by
  simp only [FailureWindow.failure_rate_pct]
  rw [if_pos h]

theorem spec_C6_witness :
    (((FailureWindow.init 60).totals 0).1).1 = 0
    ∧ ((FailureWindow.init 60).failure_rate_pct 0).1 = 0 :=
  ⟨rfl, spec_C6_empty_rate_zero (FailureWindow.init 60) 0 rfl⟩

/-- C7: `per_minute` returns exactly `count * 60 / window`, where `count` is
the number of live keys at the time of the call (the `active_orders` result
at the same instant) and the window is the clamped window size, minimum 1. -/
theorem spec_C7_per_minute_eq (windowSeconds : ℚ) (w : UniqueOrderWindow)
    (now : ℚ) :
    (UniqueOrderWindow.init windowSeconds).window = max windowSeconds 1
    ∧ (w.per_minute now).1
        = (((w.active_orders now).1 : ℚ) * 60) / w.window :=
  ⟨rfl, rfl⟩

/-- C8: the derived event identity is a deterministic function of the topic,
the transport key and the message body: two deliveries with the same topic,
key and body (hence the same decode result) get exactly the same identity. -/
theorem spec_C8_event_id_deterministic (topic : String)
    (messageKey : Option String) (value : RawValue) (p1 p2 : Payload)
    (h1 : decodePayload value = Except.ok p1)
    (h2 : decodePayload value = Except.ok p2) :
    eventId topic messageKey p1 = eventId topic messageKey p2 := by
  rw [h1] at h2
  rw [Except.ok.inj h2]

theorem spec_C8_witness :
    eventId "orders" (some "k1") [("order_id", JVal.jstr "A")]
      = eventId "orders" (some "k1") [("order_id", JVal.jstr "A")] :=
  spec_C8_event_id_deterministic "orders" (some "k1")
    (RawValue.wellFormed [("order_id", JVal.jstr "A")]) _ _ rfl rfl

/-- C2: in every snapshot, `failure_rate_pct` equals
`100 * failures / inventory_events` whenever `inventory_events` is positive,
and equals 0.0 when `inventory_events` is 0 (fields of that same snapshot). -/
theorem spec_C2_snapshot_rate (m : MetricsAggregator) (now : ℚ) :
    (0 < ((m.snapshot now).1).inventory_events →
      ((m.snapshot now).1).failure_rate_pct
        = 100 * (((m.snapshot now).1).failures : ℚ)
            / (((m.snapshot now).1).inventory_events : ℚ))
    ∧ (((m.snapshot now).1).inventory_events = 0 →
      ((m.snapshot now).1).failure_rate_pct = 0) := by
  have hrate : ((m.snapshot now).1).failure_rate_pct
      = if ((m.failureWindow.totals now).1).1 = 0 then (0 : ℚ)
        else ((((m.failureWindow.totals now).1).2 : ℚ)
            / (((m.failureWindow.totals now).1).1 : ℚ)) * 100 := by
    show (((m.failureWindow.totals now).2).failure_rate_pct now).1 = _
    simp only [FailureWindow.failure_rate_pct, FailureWindow.totals_again]
  constructor
  · intro hpos
    have hne : ¬ ((m.failureWindow.totals now).1).1 = 0 :=
      Nat.pos_iff_ne_zero.mp hpos
    rw [hrate, if_neg hne, div_mul_eq_mul_div, mul_comm]
    exact rfl
  · intro hzero
    rw [hrate,
      if_pos (show ((m.failureWindow.totals now).1).1 = 0 from hzero)]

theorem spec_C2_witness :
    0 < (((MetricsAggregator.init 60).record_inventory 0 true).snapshot 0).1.inventory_events
    ∧ (((MetricsAggregator.init 60).record_inventory 0 true).snapshot 0).1.failure_rate_pct
      = 100 * ((((MetricsAggregator.init 60).record_inventory 0 true).snapshot 0).1.failures : ℚ)
          / ((((MetricsAggregator.init 60).record_inventory 0 true).snapshot 0).1.inventory_events : ℚ) := by
  refine ⟨?_, (spec_C2_snapshot_rate ((MetricsAggregator.init 60).record_inventory 0 true) 0).1 ?_⟩
  all_goals
    norm_num [MetricsAggregator.init, MetricsAggregator.record_inventory,
      MetricsAggregator.snapshot, FailureWindow.init, FailureWindow.track,
      FailureWindow.totals, FailureWindow.evict, fwEvictLoop]

/-- C10: the incrementally maintained `_failures` counter equals the number
of failure-flagged entries left in the deque after eviction; the invariant
is preserved by `track`, `totals` and `failure_rate_pct`, and consequently
every `totals` result satisfies `failures ≤ total` and `failure_rate_pct`
always lies in the interval from 0 to 100. -/
theorem spec_C10_failures_invariant (fw : FailureWindow) (now : ℚ) (b : Bool)
    (hInv : FWInv fw) :
    FWInv (fw.track now b)
    ∧ FWInv ((fw.totals now).2)
    ∧ FWInv ((fw.failure_rate_pct now).2)
    ∧ ((fw.totals now).1).2
        = (((fw.totals now).2.events.filter (fun e => e.2)).length)
    ∧ ((fw.totals now).1).2 ≤ ((fw.totals now).1).1
    ∧ 0 ≤ (fw.failure_rate_pct now).1
    ∧ (fw.failure_rate_pct now).1 ≤ 100 := by
  have hevict : FWInv (fw.evict now) := FWInv_evict hInv now
  have hle : ((fw.totals now).1).2 ≤ ((fw.totals now).1).1 :=
    le_trans (le_of_eq hevict) (List.length_filter_le _ _)
  have hrate : (fw.failure_rate_pct now).1
      = if ((fw.totals now).1).1 = 0 then (0 : ℚ)
        else ((((fw.totals now).1).2 : ℚ) / (((fw.totals now).1).1 : ℚ)) * 100 := rfl
  refine ⟨FWInv_track hInv now b, hevict, hevict, hevict, hle, ?_, ?_⟩
  · rw [hrate]
    by_cases h : ((fw.totals now).1).1 = 0
    · rw [if_pos h]
    · rw [if_neg h]
      have ht : (0 : ℚ) < (((fw.totals now).1).1 : ℚ) :=
        Nat.cast_pos.mpr (Nat.pos_of_ne_zero h)
      positivity
  · rw [hrate]
    by_cases h : ((fw.totals now).1).1 = 0
    · rw [if_pos h]
      norm_num
    · rw [if_neg h]
      have ht : (0 : ℚ) < (((fw.totals now).1).1 : ℚ) :=
        Nat.cast_pos.mpr (Nat.pos_of_ne_zero h)
      have hd : ((((fw.totals now).1).2 : ℚ) / (((fw.totals now).1).1 : ℚ)) ≤ 1 :=
        (div_le_one ht).mpr (Nat.cast_le.mpr hle)
      calc ((((fw.totals now).1).2 : ℚ) / (((fw.totals now).1).1 : ℚ)) * 100
          ≤ 1 * 100 := by
            refine mul_le_mul_of_nonneg_right hd (by norm_num)
        _ = 100 := by norm_num

theorem spec_C10_witness :
    FWInv (FailureWindow.init 60)
    ∧ FWInv ((FailureWindow.init 60).track 0 true)
    ∧ 0 ≤ ((FailureWindow.init 60).failure_rate_pct 0).1
    ∧ ((FailureWindow.init 60).failure_rate_pct 0).1 ≤ 100 :=
  ⟨rfl,
   (spec_C10_failures_invariant (FailureWindow.init 60) 0 true rfl).1,
   (spec_C10_failures_invariant (FailureWindow.init 60) 0 true rfl).2.2.2.2.2.1,
   (spec_C10_failures_invariant (FailureWindow.init 60) 0 true rfl).2.2.2.2.2.2⟩

/-- C9: for an order-topic message, the recorded order identifier is the
stringified `order_id` payload field when that key is present; otherwise the
transport key decoded as text; when both are absent, or the key decodes to
the empty string, the resolved identifier is `None`, in which case handling
the (non-duplicate) message still increments the lifetime orders counter
but leaves the unique-order window untouched, so it never contributes to
`orders_per_min`. -/
theorem spec_C9_order_identity (env : WorkerEnv) (st : WorkerState) (now : ℚ)
    (messageKey : Option String) (p : Payload) (value : RawValue) (k : String) :
    (∀ v, dictGet p "order_id" = some v →
        resolveOrderId messageKey p = some (pyStr v))
    ∧ (dictGet p "order_id" = none → messageKey = some k → ¬ k = "" →
        resolveOrderId messageKey p = some k)
    ∧ (dictGet p "order_id" = none →
        (messageKey = none ∨ messageKey = some "") →
        resolveOrderId messageKey p = none)
    ∧ (decodePayload value = Except.ok p →
        (st.deduper.register now (eventId env.orderTopic messageKey p)).1 = false →
        resolveOrderId messageKey p = none →
        ((handleMessage env st now env.orderTopic messageKey value).1.metrics.orders
            = st.metrics.orders + 1
        ∧ (handleMessage env st now env.orderTopic messageKey value).1.metrics.orderWindow
            = st.metrics.orderWindow
        ∧ (∀ t, (((handleMessage env st now env.orderTopic messageKey value).1.metrics.orderWindow.per_minute t).1)
            = ((st.metrics.orderWindow.per_minute t).1)))) := by
  refine ⟨?_, ?_, ?_, ?_⟩
  · intro v h
    simp [resolveOrderId, h]
  · intro h hk hne
    simp [resolveOrderId, h, hk, hne]
  · intro h hkey
    rcases hkey with hk | hk
    · simp [resolveOrderId, h, hk]
    · simp [resolveOrderId, h, hk]
  · intro hdec hfresh hres
    rw [handleMessage_congr_ok hdec, handleMessage_wf_order hfresh rfl, hres]
    exact ⟨rfl, rfl, fun t => rfl⟩

theorem spec_C9_witness :
    resolveOrderId (some "k1") [("order_id", JVal.jnum 5)]
        = some (pyStr (JVal.jnum 5))
    ∧ resolveOrderId (some "k1") [] = some "k1"
    ∧ resolveOrderId (some "") [] = none
    ∧ (handleMessage ⟨"orders", "inventory"⟩
        ⟨⟨60, [], []⟩, ⟨⟨60, [], []⟩, ⟨60, [], 0⟩, 60, 0, 0, 0⟩⟩ 0 "orders"
        (some "") RawValue.absent).1.metrics.orders = 0 + 1 :=
  ⟨(spec_C9_order_identity ⟨"orders", "inventory"⟩
      ⟨⟨60, [], []⟩, ⟨⟨60, [], []⟩, ⟨60, [], 0⟩, 60, 0, 0, 0⟩⟩ 0 (some "k1")
      [("order_id", JVal.jnum 5)] RawValue.absent "k1").1 (JVal.jnum 5) rfl,
   (spec_C9_order_identity ⟨"orders", "inventory"⟩
      ⟨⟨60, [], []⟩, ⟨⟨60, [], []⟩, ⟨60, [], 0⟩, 60, 0, 0, 0⟩⟩ 0 (some "k1")
      [] RawValue.absent "k1").2.1 rfl rfl (by simp),
   (spec_C9_order_identity ⟨"orders", "inventory"⟩
      ⟨⟨60, [], []⟩, ⟨⟨60, [], []⟩, ⟨60, [], 0⟩, 60, 0, 0, 0⟩⟩ 0 (some "")
      [] RawValue.absent "k1").2.2.1 rfl (Or.inr rfl),
   ((spec_C9_order_identity ⟨"orders", "inventory"⟩
      ⟨⟨60, [], []⟩, ⟨⟨60, [], []⟩, ⟨60, [], 0⟩, 60, 0, 0, 0⟩⟩ 0 (some "")
      [] RawValue.absent "k1").2.2.2 rfl rfl rfl).1⟩

/-- C4: on a reachable window state, a key counted by `active_orders` is
never older than the window relative to the current time (its last-seen
timestamp is within `window` seconds of `now`); re-tracking a key stamps it
with the current time, and the key then stays in the entries dict under any
eviction happening within `window` seconds of that latest occurrence. -/
theorem spec_C4_window_expiry_and_refresh (w : UniqueOrderWindow) (now : ℚ)
    (hInv : UOWInv w) (hb : TimeBound w.order now) :
    (∀ oid ts, dictGet ((w.active_orders now).2).entries oid = some ts →
        now - ts ≤ w.window)
    ∧ (∀ oid, ¬ oid = "" →
        dictGet ((w.track now (some oid)).entries) oid = some now)
    ∧ (∀ oid, ¬ oid = "" → ∀ now2, now ≤ now2 → now2 - now ≤ w.window →
        dictGet (((w.track now (some oid)).evict now2).entries) oid = some now) := by
  have hwin0 : (0 : ℚ) ≤ w.window := le_trans zero_le_one hInv.wmin
  have htrackget : ∀ oid : String, ¬ oid = "" →
      dictGet ((w.track now (some oid)).entries) oid = some now := by
    intro oid hmt
    rw [track_eq_of_ne hmt]
    obtain ⟨hInvMid, hbMid⟩ := UOWInv_mid hInv hb oid
    refine ((UOWInv_evict hInvMid now).2.1 oid now).mpr ⟨?_, ?_⟩
    · show dictGet (dictSet w.entries oid now) oid = some now
      rw [dictGet_dictSet, if_pos rfl]
    · show now - w.window ≤ now
      linarith
  refine ⟨?_, htrackget, ?_⟩
  · intro oid ts h
    have := ((UOWInv_evict hInv now).2.1 oid ts).mp h
    exact sub_le_comm.mp this.2
  · intro oid hmt now2 h12 hwin
    have hInvTrack : UOWInv (w.track now (some oid)) :=
      (UOWInv_track hInv hb (some oid)).1
    have hwineq : (w.track now (some oid)).window = w.window := by
      rw [track_eq_of_ne hmt]
      rfl
    refine ((UOWInv_evict hInvTrack now2).2.1 oid now).mpr
      ⟨htrackget oid hmt, ?_⟩
    rw [hwineq]
    linarith

theorem spec_C4_witness :
    dictGet (((UniqueOrderWindow.init 60).track 0 (some "X")).entries) "X" = some 0
    ∧ dictGet ((((UniqueOrderWindow.init 60).track 0 (some "X")).evict 30).entries) "X" = some 0 :=
  ⟨(spec_C4_window_expiry_and_refresh (UniqueOrderWindow.init 60) 0
      (UOWInv_init 60) (fun e he => absurd he (List.not_mem_nil e))).2.1 "X" (by simp),
   (spec_C4_window_expiry_and_refresh (UniqueOrderWindow.init 60) 0
      (UOWInv_init 60) (fun e he => absurd he (List.not_mem_nil e))).2.2 "X" (by simp)
      30 (by norm_num) (by norm_num [UniqueOrderWindow.init])⟩

/-- C3: on a reachable filter state, `register` returns `True` exactly when
the identity has a live `_seen` entry from the trailing `ttl` seconds, and
then leaves that entry untouched (no timestamp refresh); otherwise it
records the identity at the current time and returns `False`.  In
particular, starting from a fresh filter with ttl `T` of at least 1: a
second call within `T` seconds of the first returns `True`, and a call made
more than `T` seconds after the identity was recorded returns `False`. -/
theorem spec_C3_register_contract (f : DuplicateFilter) (now : ℚ) (eid : String)
    (hInv : DFInv f) :
    ((f.register now eid).1 = true ↔
        (∃ t0, dictGet f.seen eid = some t0 ∧ now - t0 ≤ f.ttl))
    ∧ ((f.register now eid).1 = true →
        dictGet ((f.register now eid).2).seen eid = dictGet f.seen eid)
    ∧ ((f.register now eid).1 = false →
        dictGet ((f.register now eid).2).seen eid = some now)
    ∧ (∀ (T t1 t2 t3 : ℚ) (id1 : String), 1 ≤ T → t1 ≤ t2 → t2 - t1 ≤ T →
        t2 ≤ t3 → T < t3 - t1 →
        ((DuplicateFilter.init T).register t1 id1).1 = false
        ∧ (((DuplicateFilter.init T).register t1 id1).2.register t2 id1).1 = true
        ∧ ((((DuplicateFilter.init T).register t1 id1).2.register t2 id1).2.register t3 id1).1
            = false) := by
  have hchar := (DFInv_evict hInv now).2.1
  have hr1 : (f.register now eid).1 = (dictGet (f.evict now).seen eid).isSome := by
    simp only [DuplicateFilter.register]
    by_cases hc : (dictGet (f.evict now).seen eid).isSome
    · rw [if_pos hc, hc]
    · rw [if_neg hc]
      simp only [Bool.not_eq_true] at hc
      rw [hc]
  refine ⟨?_, ?_, ?_, ?_⟩
  · constructor
    · intro h
      rw [hr1] at h
      obtain ⟨ts, hts⟩ := Option.isSome_iff_exists.mp h
      obtain ⟨hg, hc⟩ := (hchar eid ts).mp hts
      exact ⟨ts, hg, sub_le_comm.mp hc⟩
    · rintro ⟨t0, hg, hle⟩
      rw [hr1]
      exact Option.isSome_iff_exists.mpr
        ⟨t0, (hchar eid t0).mpr ⟨hg, sub_le_comm.mp hle⟩⟩
  · intro h
    have hdup : (dictGet (f.evict now).seen eid).isSome := by
      rw [← hr1]
      exact h
    have h2 : (f.register now eid).2 = f.evict now := by
      simp only [DuplicateFilter.register]
      rw [if_pos hdup]
    rw [h2]
    obtain ⟨ts, hts⟩ := Option.isSome_iff_exists.mp hdup
    obtain ⟨hg, _⟩ := (hchar eid ts).mp hts
    rw [hts, hg]
  · intro h
    have hdup : ¬ (dictGet (f.evict now).seen eid).isSome = true := by
      intro hc
      rw [hr1, hc] at h
      exact Bool.noConfusion h
    have h2 : (f.register now eid).2
        = { f.evict now with
            seen := dictSet (f.evict now).seen eid now,
            order := (f.evict now).order ++ [(now, eid)] } := by
      simp only [DuplicateFilter.register]
      rw [if_neg hdup]
    rw [h2]
    show dictGet (dictSet (f.evict now).seen eid now) eid = some now
    rw [dictGet_dictSet, if_pos rfl]
  · intro T t1 t2 t3 id1 hT1 h12 h21 h23 h31
    have hT : max T 1 = T := max_eq_left hT1
    have hstep1 : (DuplicateFilter.init T).register t1 id1
        = (false, ⟨max T 1, [(id1, t1)], [(t1, id1)]⟩) := by
      simp [DuplicateFilter.register, DuplicateFilter.evict, dfEvictLoop,
        DuplicateFilter.init, dictGet, dictSet]
    have hnoev2 : ¬ (t1 < t2 - max T 1) := by
      rw [hT]
      linarith
    have hstep2 : (⟨max T 1, [(id1, t1)], [(t1, id1)]⟩ : DuplicateFilter).register t2 id1
        = (true, ⟨max T 1, [(id1, t1)], [(t1, id1)]⟩) := by
      simp [DuplicateFilter.register, DuplicateFilter.evict, dfEvictLoop,
        dictGet, hnoev2]
    have hev3 : t1 < t3 - max T 1 := by
      rw [hT]
      linarith
    have hstep3 : (⟨max T 1, [(id1, t1)], [(t1, id1)]⟩ : DuplicateFilter).register t3 id1
        = (false, ⟨max T 1, [(id1, t3)], [(t3, id1)]⟩) := by
      simp [DuplicateFilter.register, DuplicateFilter.evict, dfEvictLoop,
        dictGet, dictPop, dictSet, hev3]
    refine ⟨?_, ?_, ?_⟩
    · rw [hstep1]
    · rw [hstep1]
      show ((⟨max T 1, [(id1, t1)], [(t1, id1)]⟩ : DuplicateFilter).register t2 id1).1 = true
      rw [hstep2]
    · rw [hstep1]
      show (((⟨max T 1, [(id1, t1)], [(t1, id1)]⟩ : DuplicateFilter).register t2 id1).2.register t3 id1).1 = false
      rw [hstep2]
      show ((⟨max T 1, [(id1, t1)], [(t1, id1)]⟩ : DuplicateFilter).register t3 id1).1 = false
      rw [hstep3]

theorem spec_C3_witness :
    dictGet (((DuplicateFilter.init 60).register 0 "x").2).seen "x" = some 0
    ∧ ((DuplicateFilter.init 60).register 0 "x").1 = false
    ∧ (((DuplicateFilter.init 60).register 0 "x").2.register 30 "x").1 = true
    ∧ ((((DuplicateFilter.init 60).register 0 "x").2.register 30 "x").2.register 61 "x").1
        = false := by
  have hmain := spec_C3_register_contract (DuplicateFilter.init 60) 0 "x" (DFInv_init 60)
  have hscen := hmain.2.2.2 60 0 30 61 "x" (by norm_num) (by norm_num)
    (by norm_num) (by norm_num) (by norm_num)
  exact ⟨hmain.2.2.1 hscen.1, hscen.1, hscen.2.1, hscen.2.2⟩

theorem stepWorker_dup {env : WorkerEnv} {st : WorkerState} {now : ℚ}
    {topic : String} {messageKey : Option String} {value : RawValue} {p : Payload}
    (hdec : decodePayload value = Except.ok p)
    (hdup : (st.deduper.register now (eventId topic messageKey p)).1 = true) :
    stepWorker env now topic messageKey value st
      = { deduper := (st.deduper.register now (eventId topic messageKey p)).2,
          metrics := st.metrics.record_duplicate } := by
  show (handleMessage env st now topic messageKey value).1 = _
  rw [handleMessage_congr_ok hdec, handleMessage_wf_dup hdup]

/-- C5: once the identity of a decoded message is already registered,
handling that message any number of times makes only `record_duplicate`
calls: after `n` repetitions the aggregator differs from the original
solely in `duplicates`, which grew by `n` — orders, inventory, both window
structures and every snapshot field are untouched — and each repetition
produces exactly the record-call trace `[dup]`.  A first (unregistered)
delivery to a business topic instead records one business metric and leaves
the duplicate counter unchanged. -/
theorem spec_C5_duplicate_frame (env : WorkerEnv) (st : WorkerState) (now : ℚ)
    (topic : String) (messageKey : Option String) (value : RawValue)
    (p : Payload) (hdec : decodePayload value = Except.ok p) :
    ((st.deduper.register now (eventId topic messageKey p)).1 = true →
      ∀ n : ℕ,
        ((stepWorker env now topic messageKey value)^[n] st).metrics
          = { st.metrics with duplicates := st.metrics.duplicates + n }
        ∧ (∀ t, ((((stepWorker env now topic messageKey value)^[n] st).metrics.snapshot t).1)
            = (st.metrics.snapshot t).1)
        ∧ (handleMessage env ((stepWorker env now topic messageKey value)^[n] st)
            now topic messageKey value).2 = [RecordCall.dup])
    ∧ ((st.deduper.register now (eventId topic messageKey p)).1 = false →
        (topic = env.orderTopic ∨ topic = env.inventoryTopic) →
        ((handleMessage env st now topic messageKey value).1.metrics.duplicates
            = st.metrics.duplicates
        ∧ (handleMessage env st now topic messageKey value).1.metrics.orders
              + (handleMessage env st now topic messageKey value).1.metrics.inventory
            = st.metrics.orders + st.metrics.inventory + 1)) := by
  constructor
  · intro hdup
    have key : ∀ n : ℕ,
        ((((stepWorker env now topic messageKey value)^[n] st).deduper.register
            now (eventId topic messageKey p)).1 = true)
        ∧ ((stepWorker env now topic messageKey value)^[n] st).metrics
            = { st.metrics with duplicates := st.metrics.duplicates + n } := by
      intro n
      induction n with
      | zero =>
        refine ⟨hdup, ?_⟩
        show st.metrics = { st.metrics with duplicates := st.metrics.duplicates + 0 }
        simp
      | succ k ih =>
        rw [Function.iterate_succ_apply', stepWorker_dup hdec ih.1]
        constructor
        · show ((((stepWorker env now topic messageKey value)^[k] st).deduper.register
              now (eventId topic messageKey p)).2.register
              now (eventId topic messageKey p)).1 = true
          rw [DuplicateFilter.register_again ih.1]
        · show ((stepWorker env now topic messageKey value)^[k] st).metrics.record_duplicate
            = { st.metrics with duplicates := st.metrics.duplicates + (k + 1) }
          rw [ih.2]
          show { st.metrics with duplicates := st.metrics.duplicates + k + 1 }
            = { st.metrics with duplicates := st.metrics.duplicates + (k + 1) }
          rw [Nat.add_assoc]
    intro n
    refine ⟨(key n).2, ?_, ?_⟩
    · intro t
      rw [(key n).2]
      exact snapshot_ignores_duplicates st.metrics _ t
    · rw [handleMessage_congr_ok hdec, handleMessage_wf_dup (key n).1]
  · intro hfresh htopic
    by_cases horder : topic = env.orderTopic
    · rw [handleMessage_congr_ok hdec, handleMessage_wf_order hfresh horder]
      refine ⟨rfl, ?_⟩
      show (st.metrics.orders + 1) + st.metrics.inventory
          = st.metrics.orders + st.metrics.inventory + 1
      omega
    · have hinv2 : topic = env.inventoryTopic := htopic.resolve_left horder
      rw [handleMessage_congr_ok hdec, handleMessage_wf_inventory hfresh horder hinv2]
      refine ⟨rfl, ?_⟩
      show st.metrics.orders + (st.metrics.inventory + 1)
          = st.metrics.orders + st.metrics.inventory + 1
      omega

theorem spec_C5_witness :
    ((stepWorker ⟨"orders", "inventory"⟩ 0 "orders" none (RawValue.wellFormed []))^[2]
        ⟨⟨60, [(eventId "orders" none [], 0)], [(0, eventId "orders" none [])]⟩,
         ⟨⟨60, [], []⟩, ⟨60, [], 0⟩, 60, 0, 0, 0⟩⟩).metrics
      = { (⟨⟨60, [], []⟩, ⟨60, [], 0⟩, 60, 0, 0, 0⟩ : MetricsAggregator) with
          duplicates := 0 + 2 }
    ∧ (handleMessage ⟨"orders", "inventory"⟩
        ⟨⟨60, [], []⟩, ⟨⟨60, [], []⟩, ⟨60, [], 0⟩, 60, 0, 0, 0⟩⟩ 0 "orders" none
        (RawValue.wellFormed [])).1.metrics.duplicates = 0 :=
  ⟨((spec_C5_duplicate_frame ⟨"orders", "inventory"⟩
      ⟨⟨60, [(eventId "orders" none [], 0)], [(0, eventId "orders" none [])]⟩,
       ⟨⟨60, [], []⟩, ⟨60, [], 0⟩, 60, 0, 0, 0⟩⟩ 0 "orders" none
      (RawValue.wellFormed []) [] rfl).1
      (by norm_num [DuplicateFilter.register, DuplicateFilter.evict, dfEvictLoop,
        dictGet]) 2).1,
   ((spec_C5_duplicate_frame ⟨"orders", "inventory"⟩
      ⟨⟨60, [], []⟩, ⟨⟨60, [], []⟩, ⟨60, [], 0⟩, 60, 0, 0, 0⟩⟩ 0 "orders" none
      (RawValue.wellFormed []) [] rfl).2 rfl (Or.inl rfl)).1⟩

/-- C1 counterexample: for a concrete malformed message (whose payload
decoding raises), the run-loop body still issues an offset commit — the
commit in `run` is unconditional, not guarded by the decode outcome — which
refutes the claim that no commit call is issued for a malformed message. -/
theorem spec_C1_counterexample :
    decodePayload (RawValue.malformed "bad utf-8")
      = Except.error ("Invalid JSON payload: " ++ "bad utf-8")
    ∧ (workerStep ⟨"orders", "inventory"⟩
        ⟨⟨60, [], []⟩, ⟨⟨60, [], []⟩, ⟨60, [], 0⟩, 60, 0, 0, 0⟩⟩ 0 "orders" none
        (RawValue.malformed "bad utf-8")).2.2 = true :=
  ⟨rfl, rfl⟩

/-- C1 (amended): a decode failure makes the worker skip the message — no
record call is issued, the worker state (dedup filter and aggregator) is
unchanged, and every field of a subsequent snapshot is unchanged — but the
run loop still commits the offset of the malformed message. -/
theorem spec_C1_decode_failure_skips_but_commits (env : WorkerEnv)
    (st : WorkerState) (now : ℚ) (topic : String) (messageKey : Option String)
    (value : RawValue) (e : String)
    (hdec : decodePayload value = Except.error e) :
    workerStep env st now topic messageKey value = (st, [], true)
    ∧ (∀ t, (((workerStep env st now topic messageKey value).1).metrics.snapshot t).1
        = (st.metrics.snapshot t).1) := by
  have h := handleMessage_decode_error hdec env st now topic messageKey
  constructor
  · show ((handleMessage env st now topic messageKey value).1,
      (handleMessage env st now topic messageKey value).2, true) = (st, [], true)
    rw [h]
  · intro t
    show (((handleMessage env st now topic messageKey value).1).metrics.snapshot t).1
        = (st.metrics.snapshot t).1
    rw [h]

theorem spec_C1_witness :
    workerStep ⟨"orders", "inventory"⟩
        ⟨⟨60, [], []⟩, ⟨⟨60, [], []⟩, ⟨60, [], 0⟩, 60, 0, 0, 0⟩⟩ 0 "orders" none
        (RawValue.malformed "oops")
      = (⟨⟨60, [], []⟩, ⟨⟨60, [], []⟩, ⟨60, [], 0⟩, 60, 0, 0, 0⟩⟩, [], true) :=
  (spec_C1_decode_failure_skips_but_commits ⟨"orders", "inventory"⟩
    ⟨⟨60, [], []⟩, ⟨⟨60, [], []⟩, ⟨60, [], 0⟩, 60, 0, 0, 0⟩⟩ 0 "orders" none
    (RawValue.malformed "oops") ("Invalid JSON payload: " ++ "oops") rfl).1
